import Mathlib

/-!
Verification development for the training and validation loop of the
Show-Attend-and-Tell repository: the loop of train.py and the dataset
constructor of dataset.py are embedded over lists of rationals, and the
numeric and sequencing contracts of the design document are settled
against that embedding.
-/

namespace ShowAttendTell

/-- Embeds the target slicing of train.py line 74 and line 115: every caption row
loses its position-0 start token, keeping positions 1 and later. -/
def shiftTargets (captions : List (List Nat)) : List (List Nat) :=
  captions.map (List.drop 1)

/-- Embeds the data field of torch pack_padded_sequence with batch_first set: the
packed rows are produced time-major, each time step t taking the row at t of every
sample whose declared length exceeds t. This matches torch on the uniform-length
batches the loop produces, where the declared lengths are equal across the batch. -/
def packPadded {α : Type _} (xs : List (List α)) (lens : List Nat) : List α :=
  (List.range (lens.foldr max 0)).flatMap fun t =>
    (xs.zip lens).filterMap fun p => if t < p.2 then p.1[t]? else none

/-- Embeds train.py line 76 and line 117: the shifted targets are packed with
declared lengths one less than each shifted row, so each caption contributes its
length minus two trailing positions. -/
def flattenedTargets (captions : List (List Nat)) : List Nat :=
  packPadded (shiftTargets captions)
    ((shiftTargets captions).map fun tar => tar.length - 1)

/-- Embeds train.py line 77 and line 118: the decoder predictions are packed with
declared lengths one less than each prediction row. -/
def flattenedPreds {α : Type _} (preds : List (List α)) : List α :=
  packPadded preds (preds.map fun p => p.length - 1)

lemma foldr_max_map_const {α : Type _} (xs : List α) (m : Nat) (h : xs ≠ []) :
    ((xs.map fun _ => m).foldr max 0) = m := by
  induction xs with
  | nil => exact absurd rfl h
  | cons a l ih =>
    cases l with
    | nil => simp
    | cons b t =>
      simp only [List.map_cons, List.foldr_cons] at ih ⊢
      rw [ih (by simp)]
      exact Nat.max_self m

lemma packPadded_const {α : Type _} (xs : List (List α)) (m : Nat) :
    packPadded xs (xs.map fun _ => m) =
      (List.range m).flatMap fun t => xs.filterMap fun x => x[t]? := by
  rcases xs with _ | ⟨a, l⟩
  · simp [packPadded]
  · unfold packPadded
    rw [foldr_max_map_const _ m (by simp)]
    refine List.flatMap_congr fun t ht => ?_
    have hzip : (a :: l).zip ((a :: l).map fun _ => m)
        = (a :: l).map fun x => (x, m) := by
      simpa using List.zip_map' id (fun _ => m) (a :: l)
    rw [hzip, List.filterMap_map]
    refine List.filterMap_congr fun x hx => ?_
    have ht' : t < m := List.mem_range.mp ht
    simp [Function.comp, ht']

lemma filterMap_getElem_length {α : Type _} (xs : List (List α)) (t : Nat)
    (h : ∀ x ∈ xs, t < x.length) :
    (xs.filterMap fun x => x[t]?).length = xs.length := by
  induction xs with
  | nil => rfl
  | cons a l ih =>
    have ha : t < a.length := h a (by simp)
    rw [List.filterMap_cons, List.getElem?_eq_getElem ha]
    simp only [List.length_cons]
    rw [ih (fun x hx => h x (by simp [hx]))]

lemma flattenedTargets_uniform (captions : List (List Nat)) (L : Nat)
    (huni : ∀ c ∈ captions, c.length = L) :
    flattenedTargets captions =
      (List.range (L - 2)).flatMap fun t => captions.filterMap fun cap => cap[t + 1]? := by
  unfold flattenedTargets
  have hmap : (shiftTargets captions).map (fun tar => tar.length - 1)
      = (shiftTargets captions).map fun _ => L - 2 := by
    refine List.map_congr_left fun tar htar => ?_
    obtain ⟨cap, hc, rfl⟩ := List.mem_map.mp htar
    have hlen := huni cap hc
    simp only [List.length_drop]
    omega
  rw [hmap, packPadded_const]
  refine List.flatMap_congr fun t ht => ?_
  unfold shiftTargets
  rw [List.filterMap_map]
  refine List.filterMap_congr fun cap hc => ?_
  show (List.drop 1 cap)[t]? = cap[t + 1]?
  rw [List.getElem?_drop, Nat.add_comm]

lemma flattenedTargets_uniform_length (captions : List (List Nat)) (L : Nat)
    (hL : 3 ≤ L) (huni : ∀ c ∈ captions, c.length = L) :
    (flattenedTargets captions).length = captions.length * (L - 2) := by
  rw [flattenedTargets_uniform captions L huni, List.length_flatMap]
  have hconst : (List.range (L - 2)).map
        (List.length ∘ fun t => captions.filterMap fun cap => cap[t + 1]?)
      = (List.range (L - 2)).map fun _ => captions.length := by
    refine List.map_congr_left fun t ht => ?_
    have ht' : t < L - 2 := List.mem_range.mp ht
    refine filterMap_getElem_length captions (t + 1) fun cap hc => ?_
    rw [huni cap hc]
    omega
  rw [hconst, List.map_const', List.sum_replicate, List.length_range, smul_eq_mul,
    Nat.mul_comm]

lemma flattenedPreds_uniform_length {α : Type _} (preds : List (List α)) (L : Nat)
    (hL : 3 ≤ L) (huni : ∀ p ∈ preds, p.length = L - 1) :
    (flattenedPreds preds).length = preds.length * (L - 2) := by
  unfold flattenedPreds
  have hmap : preds.map (fun p => p.length - 1) = preds.map fun _ => L - 2 := by
    refine List.map_congr_left fun p hp => ?_
    rw [huni p hp]
    omega
  rw [hmap, packPadded_const, List.length_flatMap]
  have hconst : (List.range (L - 2)).map
        (List.length ∘ fun t => preds.filterMap fun x => x[t]?)
      = (List.range (L - 2)).map fun _ => preds.length := by
    refine List.map_congr_left fun t ht => ?_
    have ht' : t < L - 2 := List.mem_range.mp ht
    refine filterMap_getElem_length preds t fun p hp => ?_
    rw [huni p hp]
    omega
  rw [hconst, List.map_const', List.sum_replicate, List.length_range, smul_eq_mul,
    Nat.mul_comm]

/-- C1 (counterexample): on the batch of two captions of uniform length 4 the
flattened targets have 4 rows, not the 2 times 3 rows the claim states; packing with
declared lengths one below the already shifted rows drops the final target of every
caption. -/
theorem C1_counterexample :
    (flattenedTargets [[0, 3, 5, 2], [0, 7, 1, 9]]).length ≠ 2 * (4 - 1) := by
  decide

/-- C1 (amended): for a batch of B captions of uniform length L with L at least 3,
the flattened predictions and targets fed to the loss and accuracy have exactly
B times L minus 2 rows each, and the flattened targets are precisely the time-major
flattening of target positions 1 up to L minus 2, the final target position of every
caption being dropped. -/
theorem C1_uniform_flattening {α : Type} (captions : List (List Nat))
    (preds : List (List α)) (L : Nat) (hL : 3 ≤ L)
    (hcap : ∀ c ∈ captions, c.length = L)
    (hpred : ∀ p ∈ preds, p.length = L - 1) :
    (flattenedTargets captions).length = captions.length * (L - 2) ∧
    (flattenedPreds preds).length = preds.length * (L - 2) ∧
    flattenedTargets captions =
      (List.range (L - 2)).flatMap fun t => captions.filterMap fun cap => cap[t + 1]? :=
  ⟨flattenedTargets_uniform_length captions L hL hcap,
   flattenedPreds_uniform_length preds L hL hpred,
   flattenedTargets_uniform captions L hcap⟩

/-- Witness for C1 at the concrete batch of two captions of length 4. -/
theorem C1_uniform_flattening_witness :
    (3 ≤ 4) ∧
    (flattenedTargets [[0, 3, 5, 2], [0, 7, 1, 9]]).length = 2 * (4 - 2) ∧
    (flattenedPreds [[10, 20, 30], [40, 50, 60]]).length = 2 * (4 - 2) := by
  refine ⟨by decide, ?_, ?_⟩
  · exact (C1_uniform_flattening [[0, 3, 5, 2], [0, 7, 1, 9]]
      ([[10, 20, 30], [40, 50, 60]] : List (List Nat)) 4 (by decide) (by decide)
      (by decide)).1
  · exact (C1_uniform_flattening [[0, 3, 5, 2], [0, 7, 1, 9]]
      ([[10, 20, 30], [40, 50, 60]] : List (List Nat)) 4 (by decide) (by decide)
      (by decide)).2.1



/-- Modelled from the spec: utils.AverageMeter is imported by train.py but utils.py is
not among the sources; spec section 4.1 gives its contract as a running sum and count. -/
structure AverageMeter where
  sum : ℚ
  count : ℚ

/-- Modelled from the spec: update of section 4.1 adds value times weight to the
running sum and weight to the running count. -/
def AverageMeter.update (m : AverageMeter) (value weight : ℚ) : AverageMeter :=
  { sum := m.sum + value * weight, count := m.count + weight }

/-- Embeds train.py line 86 and line 125: the per-batch weight handed to every meter
update is the summed length of all caption rows of the batch, the start token and
any padding included. -/
def totalCaptionLength (captions : List (List Nat)) : Nat :=
  (captions.map List.length).sum

/-- Embeds the loss-meter lifecycle of one pass (train.py lines 66 and 88, and lines
107 and 127): a fresh meter, then one update per batch with that batch loss value
and the weight totalCaptionLength. -/
def runLossMeter (lossOf : List (List Nat) → ℚ)
    (batches : List (List (List Nat))) : AverageMeter :=
  batches.foldl (fun m b => m.update (lossOf b) (totalCaptionLength b : ℚ)) ⟨0, 0⟩

lemma runLossMeter_count_from (lossOf : List (List Nat) → ℚ)
    (batches : List (List (List Nat))) (m0 : AverageMeter) :
    (batches.foldl
        (fun m b => m.update (lossOf b) (totalCaptionLength b : ℚ)) m0).count
      = m0.count + (batches.map fun b => ((totalCaptionLength b : ℚ))).sum := by
  induction batches generalizing m0 with
  | nil => simp
  | cons b bs ih =>
    simp only [List.foldl_cons, List.map_cons, List.sum_cons]
    rw [ih]
    simp [AverageMeter.update]
    ring

lemma runLossMeter_count (lossOf : List (List Nat) → ℚ)
    (batches : List (List (List Nat))) :
    (runLossMeter lossOf batches).count
      = (batches.map fun b => ((totalCaptionLength b : ℚ))).sum := by
  unfold runLossMeter
  rw [runLossMeter_count_from]
  simp

lemma totalCaptionLength_uniform (b : List (List Nat)) (L : Nat)
    (huni : ∀ cap ∈ b, cap.length = L) :
    totalCaptionLength b = b.length * L := by
  unfold totalCaptionLength
  have hmap : b.map List.length = b.map fun _ => L :=
    List.map_congr_left fun cap hc => huni cap hc
  rw [hmap, List.map_const', List.sum_replicate, smul_eq_mul]

/-- C2 (counterexample): on a pass of one batch of two captions of uniform length 4,
the weight handed to the meter is 8 while only 4 flattened target rows are scored,
so the summed weights do not equal the number of scored rows. -/
theorem C2_counterexample :
    (runLossMeter (fun _ => 0) [[[0, 3, 5, 2], [0, 7, 1, 9]]]).count
      ≠ ((flattenedTargets [[0, 3, 5, 2], [0, 7, 1, 9]]).length : ℚ) := by
  have hrows : (flattenedTargets [[0, 3, 5, 2], [0, 7, 1, 9]]).length = 4 := by decide
  rw [hrows, runLossMeter_count]
  norm_num [totalCaptionLength]

/-- C2 (amended): over every pass whose batches have uniform caption length L with L
at least 3, the sum of the weights handed to the meter updates equals the total
number of flattened target rows actually scored plus two extra tokens per caption:
the weight counts the whole padded caption, the start token and the dropped final
target included. -/
theorem C2_meter_weights (lossOf : List (List Nat) → ℚ)
    (batches : List (List (List Nat))) (L : Nat) (hL : 3 ≤ L)
    (huni : ∀ b ∈ batches, ∀ cap ∈ b, cap.length = L) :
    (runLossMeter lossOf batches).count
      = (batches.map fun b => ((flattenedTargets b).length : ℚ)).sum
        + 2 * (batches.map fun b => ((b.length : ℚ))).sum := by
  rw [runLossMeter_count]
  induction batches with
  | nil => simp
  | cons b bs ih =>
    have hb : ∀ cap ∈ b, cap.length = L := huni b (by simp)
    have hbs : ∀ x ∈ bs, ∀ cap ∈ x, cap.length = L :=
      fun x hx => huni x (by simp [hx])
    simp only [List.map_cons, List.sum_cons]
    rw [ih hbs, totalCaptionLength_uniform b L hb,
      flattenedTargets_uniform_length b L hL hb]
    have hcast : ((b.length * L : Nat) : ℚ)
        = ((b.length * (L - 2) : Nat) : ℚ) + 2 * (b.length : ℚ) := by
      push_cast [Nat.cast_sub (show 2 ≤ L by omega)]
      ring
    rw [hcast]
    ring

/-- Witness for C2 at a pass of one batch of two captions of length 4. -/
theorem C2_meter_weights_witness :
    (3 ≤ 4) ∧
    (runLossMeter (fun _ => 0) [[[0, 3, 5, 2], [0, 7, 1, 9]]]).count
      = ([[[0, 3, 5, 2], [0, 7, 1, 9]]].map
            fun b => ((flattenedTargets b).length : ℚ)).sum
        + 2 * ([[[0, 3, 5, 2], [0, 7, 1, 9]]].map fun b => ((b.length : ℚ))).sum := by
  refine ⟨by decide, ?_⟩
  exact C2_meter_weights (fun _ => 0) [[[0, 3, 5, 2], [0, 7, 1, 9]]] 4 (by decide)
    (by decide)

/-- A Python value as far as the dataset constructor calls of main go. -/
inductive PyValue where
  | transform
  | str (s : String)
deriving DecidableEq

/-- Outcome of binding the arguments of one ImageCaptionDataset construction. -/
inductive BindOutcome where
  | ok (tr : PyValue) (splitType : PyValue)
  | typeError (msg : String)
deriving DecidableEq

/-- Embeds the Python argument binding of the ImageCaptionDataset initializer at
dataset.py line 15: the declared parameters after self are transform and the split
name, the split name defaulting to the train split; a second positional argument
binds the split name, a keyword split name on top of a positional one is a
TypeError, and so is any surplus positional argument. -/
def bindDatasetInit (pos : List PyValue) (kwSplit : Option PyValue) : BindOutcome :=
  match pos, kwSplit with
  | [t], none => .ok t (.str "train")
  | [t], some s => .ok t s
  | [t, s], none => .ok t s
  | [_, _], some _ =>
      .typeError "TypeError: got multiple values for argument split_type"
  | _, _ => .typeError "TypeError: wrong number of arguments"

/-- Embeds dataset.py lines 21 and 22: the two json files are looked up at paths
formed by gluing the split argument onto fixed suffixes, not inside any directory. -/
def datasetJsonPaths (split : String) : String × String :=
  (split ++ "_img_paths.json", split ++ "_captions.json")

/-- One observable action of main (train.py lines 40 to 57). -/
inductive Event where
  | schedStep (epoch : Nat)
  | trainPass (epoch : Nat)
  | evalPass (epoch : Nat)
  | saveDecoderCheckpoint (epoch : Nat) (path : String)
deriving DecidableEq

/-- Embeds the body of the epoch loop (train.py lines 49 to 57): scheduler step, one
train pass, one validate pass, then a torch.save of the decoder state dict alone to
a path tagged with the epoch number. -/
def epochBody (e : Nat) : List Event :=
  [.schedStep e, .trainPass e, .evalPass e,
   .saveDecoderCheckpoint e ("model/model_" ++ toString e ++ ".pth")]

/-- Embeds the epoch loop of main: epochs 1 up to args.epochs in order, each
emitting epochBody. -/
def epochLoopTrace (E : Nat) : List Event :=
  (List.range' 1 E).flatMap epochBody

def checkInit (o : BindOutcome) : Except String (PyValue × PyValue) :=
  match o with
  | .ok t s => .ok (t, s)
  | .typeError m => .error m

/-- Embeds the sequencing of main (train.py lines 40 to 57): the train loader
dataset is constructed first, then the validation loader dataset, and only then
does the epoch loop run; a constructor whose argument binding is a TypeError aborts
main at that point. The file reads preceding the constructors are abstracted as
succeeding. -/
def mainExec (dataPath : String) (E : Nat) : Except String (List Event) := do
  let _ ← checkInit (bindDatasetInit [.transform, .str dataPath] none)
  let _ ← checkInit (bindDatasetInit [.transform, .str dataPath] (some (.str "val")))
  pure (epochLoopTrace E)

/-- C3: for every data path, main aborts with the multiple-values TypeError of the
validation loader construction before any epoch event; on the way there, the train
loader construction silently binds the data path as the split name, so its json
files are looked up at dataPath glued to the fixed suffixes. -/
theorem C3_init_type_error (dataPath : String) (E : Nat) :
    mainExec dataPath E
      = Except.error "TypeError: got multiple values for argument split_type" ∧
    bindDatasetInit [.transform, .str dataPath] none
      = .ok .transform (.str dataPath) ∧
    datasetJsonPaths dataPath
      = (dataPath ++ "_img_paths.json", dataPath ++ "_captions.json") :=
  ⟨rfl, rfl, rfl⟩

def saveEpoch (ev : Event) : Option Nat :=
  match ev with
  | .saveDecoderCheckpoint e _ => some e
  | _ => none

lemma filterMap_save_epochBody (e : Nat) :
    (epochBody e).filterMap saveEpoch = [e] := rfl

lemma epochLoop_saves (n : Nat) :
    ∀ s : Nat, ((List.range' s n).flatMap epochBody).filterMap saveEpoch
      = List.range' s n := by
  induction n with
  | zero => intro s; rfl
  | succ n ih =>
    intro s
    rw [List.range'_succ, List.flatMap_cons, List.filterMap_append,
      filterMap_save_epochBody, ih (s + 1)]
    rfl

lemma flatMap_mem_decomp {α β : Type _} (f : α → List β) :
    ∀ (xs : List α) (a : α), a ∈ xs → ∃ l r, xs.flatMap f = l ++ (f a ++ r) := by
  intro xs
  induction xs with
  | nil => intro a ha; cases ha
  | cons x t ih =>
    intro a ha
    rcases List.mem_cons.mp ha with h | h
    · exact ⟨[], t.flatMap f, by simp [List.flatMap_cons, h]⟩
    · obtain ⟨l, r, hlr⟩ := ih a h
      exact ⟨f x ++ l, r, by simp [List.flatMap_cons, hlr]⟩

/-- C7: the controller trace saves checkpoints for exactly the epochs 1 up to E, in
that order and nothing else; every epoch index of that range contributes one
contiguous block of scheduler step, train pass, eval pass, then decoder checkpoint
save to the epoch-tagged path; and every save event in the trace carries an epoch
of the range and its tagged path. -/
theorem C7_training_controller (E : Nat) :
    (epochLoopTrace E).filterMap saveEpoch = List.range' 1 E ∧
    ((epochLoopTrace E).filterMap saveEpoch).length = E ∧
    (∀ e ∈ List.range' 1 E, ∃ l r, epochLoopTrace E = l ++ (epochBody e ++ r)) ∧
    (∀ e p, Event.saveDecoderCheckpoint e p ∈ epochLoopTrace E →
      1 ≤ e ∧ e ≤ E ∧ p = "model/model_" ++ toString e ++ ".pth") := by
  refine ⟨epochLoop_saves E 1, ?_, ?_, ?_⟩
  · rw [show (epochLoopTrace E).filterMap saveEpoch = List.range' 1 E from
      epochLoop_saves E 1, List.length_range']
  · intro e he
    exact flatMap_mem_decomp epochBody (List.range' 1 E) e he
  · intro e p hmem
    obtain ⟨a, ha, hbody⟩ := List.mem_flatMap.mp hmem
    obtain ⟨h1, h2⟩ := List.mem_range'_1.mp ha
    simp only [epochBody, List.mem_cons, List.not_mem_nil, or_false] at hbody
    rcases hbody with h | h | h | h
    · cases h
    · cases h
    · cases h
    · cases h
      exact ⟨h1, by omega, rfl⟩

/-- Embeds the elementwise vector addition underlying the dim-1 tensor sum. -/
def sumRows : List (List ℚ) → List ℚ
  | [] => []
  | [r] => r
  | r :: rs => List.zipWith (fun x y => x + y) r (sumRows rs)

/-- Embeds the tensor mean over every entry of a two dimensional tensor: total sum
divided by total element count. -/
def mean2d (m : List (List ℚ)) : ℚ :=
  (m.map List.sum).sum / (m.map fun r => ((r.length : ℚ))).sum

/-- Embeds train.py line 79 and line 120: the attention penalty is alpha_c times the
mean of the squared difference between one and the dim-1 sum of the attention
weights, the sum running over the time dimension of the B by T by K tensor. -/
def attRegularization (alphaC : ℚ) (alphas : List (List (List ℚ))) : ℚ :=
  alphaC * mean2d ((alphas.map sumRows).map fun row => row.map fun a => (1 - a) ^ 2)

/-- Reads one entry of a B by T by K tensor, defaulting out-of-range reads to 0. -/
def at3 (alphas : List (List (List ℚ))) (b t k : Nat) : ℚ :=
  ((alphas.getD b []).getD t []).getD k 0

/-- Written from the words of spec section 4.2 step 3 for comparison with the code
side: alpha_c times the mean over (batch, location) pairs of the squared difference
between one and the time-summed attention weight. -/
def specAttPenalty (alphaC : ℚ) (alphas : List (List (List ℚ)))
    (B T K : Nat) : ℚ :=
  alphaC * (((List.range B).map fun b => ((List.range K).map fun k =>
      (1 - ((List.range T).map fun t => at3 alphas b t k).sum) ^ 2).sum).sum
    / ((B : ℚ) * (K : ℚ)))

/-- Modelled from the spec: the loss collaborator nn.CrossEntropyLoss is outside the
sources; spec section 4.2 step 2 takes it as mean softmax negative log likelihood of
the true token. It is parametrized by the log map of the numeric backend and reads
predictions as softmax probability rows. -/
def crossEntropyProbs (logF : ℚ → ℚ) (preds : List (List ℚ))
    (targets : List Nat) : ℚ :=
  -(((preds.zip targets).map fun pt => logF (pt.1.getD pt.2 0)).sum)
    / ((preds.length : ℚ))

/-- Embeds train.py lines 81 and 82 (also 122 and 123): the total loss is the
cross entropy of the flattened predictions and targets plus the attention penalty. -/
def totalLoss (logF : ℚ → ℚ) (fpreds : List (List ℚ)) (ftargets : List Nat)
    (alphaC : ℚ) (alphas : List (List (List ℚ))) : ℚ :=
  crossEntropyProbs logF fpreds ftargets + attRegularization alphaC alphas

lemma zipWith_add_getD (a b : List ℚ) (k : Nat) (ha : k < a.length)
    (hb : k < b.length) :
    (List.zipWith (fun x y => x + y) a b).getD k 0 = a.getD k 0 + b.getD k 0 := by
  induction a generalizing b k with
  | nil => cases ha
  | cons x xs ih =>
    cases b with
    | nil => cases hb
    | cons y ys =>
      cases k with
      | zero => rfl
      | succ k =>
        rw [List.zipWith_cons_cons, List.getD_cons_succ, List.getD_cons_succ,
          List.getD_cons_succ]
        exact ih ys k (by simpa using ha) (by simpa using hb)

lemma sumRows_length (a : List (List ℚ)) (K : Nat) (hne : a ≠ [])
    (h : ∀ r ∈ a, r.length = K) : (sumRows a).length = K := by
  induction a with
  | nil => cases hne rfl
  | cons r rs ih =>
    cases rs with
    | nil => simpa [sumRows] using h r (by simp)
    | cons r2 rs2 =>
      show (List.zipWith (fun x y => x + y) r (sumRows (r2 :: rs2))).length = K
      rw [List.length_zipWith, h r (by simp),
        ih (by simp) (fun x hx => h x (by simp [hx]))]
      exact min_self K

lemma map_getD_range {β : Type _} (l : List β) (d : β) :
    (List.range l.length).map (fun i => l.getD i d) = l := by
  induction l with
  | nil => rfl
  | cons a t ih =>
    rw [List.length_cons, List.range_succ_eq_map, List.map_cons, List.map_map]
    simp only [List.getD_cons_zero, Function.comp_def, List.getD_cons_succ]
    rw [ih]

lemma range_map_getD {β γ : Type _} (l : List β) (d : β) (f : β → γ) :
    (List.range l.length).map (fun i => f (l.getD i d)) = l.map f := by
  have h : (fun i => f (l.getD i d)) = f ∘ fun i => l.getD i d := rfl
  rw [h, ← List.map_map, map_getD_range]

lemma sumRows_getD (a : List (List ℚ)) (K : Nat) (h : ∀ r ∈ a, r.length = K)
    (k : Nat) (hk : k < K) :
    (sumRows a).getD k 0 = (a.map fun r => r.getD k 0).sum := by
  induction a with
  | nil => simp [sumRows]
  | cons r rs ih =>
    cases rs with
    | nil => simp [sumRows]
    | cons r2 rs2 =>
      show (List.zipWith (fun x y => x + y) r (sumRows (r2 :: rs2))).getD k 0 = _
      rw [zipWith_add_getD r (sumRows (r2 :: rs2)) k
          (by rw [h r (by simp)]; exact hk)
          (by rw [sumRows_length (r2 :: rs2) K (by simp)
              (fun x hx => h x (by simp [hx]))]; exact hk),
        ih (fun x hx => h x (by simp [hx]))]
      simp

lemma attReg_eq_spec (alphaC : ℚ) (alphas : List (List (List ℚ))) (B T K : Nat)
    (hB : alphas.length = B) (hT : ∀ a ∈ alphas, a.length = T) (hT1 : 1 ≤ T)
    (hK : ∀ a ∈ alphas, ∀ r ∈ a, r.length = K) :
    attRegularization alphaC alphas = specAttPenalty alphaC alphas B T K := by
  have hne : ∀ a ∈ alphas, a ≠ [] := by
    intro a ha hnil
    have hTa := hT a ha
    rw [hnil] at hTa
    simp at hTa
    omega
  have hsumlen : ∀ a ∈ alphas, (sumRows a).length = K :=
    fun a ha => sumRows_length a K (hne a ha) (hK a ha)
  have hrow : ∀ a ∈ alphas,
      ((sumRows a).map fun x => (1 - x) ^ 2).sum
        = ((List.range K).map fun k =>
            (1 - ((List.range T).map fun t => (a.getD t []).getD k 0).sum) ^ 2).sum := by
    intro a ha
    have h1 : ((List.range K).map fun k => (1 - (sumRows a).getD k 0) ^ 2)
        = (sumRows a).map fun x => (1 - x) ^ 2 := by
      rw [← hsumlen a ha]
      exact range_map_getD (sumRows a) 0 fun x => (1 - x) ^ 2
    rw [← h1]
    refine congrArg List.sum (List.map_congr_left fun k hk => ?_)
    have hk2 : k < K := List.mem_range.mp hk
    rw [sumRows_getD a K (hK a ha) k hk2]
    have h2 : (List.range T).map (fun t => (a.getD t []).getD k 0)
        = a.map fun r => r.getD k 0 := by
      rw [← hT a ha]
      exact range_map_getD a [] fun r => r.getD k 0
    rw [h2]
  have hnum : (alphas.map fun a => ((sumRows a).map fun x => (1 - x) ^ 2).sum).sum
      = ((List.range B).map fun b => ((List.range K).map fun k =>
          (1 - ((List.range T).map fun t =>
            ((alphas.getD b []).getD t []).getD k 0).sum) ^ 2).sum).sum := by
    rw [← hB]
    have hF := range_map_getD alphas []
      (fun a => ((List.range K).map fun k =>
        (1 - ((List.range T).map fun t => (a.getD t []).getD k 0).sum) ^ 2).sum)
    calc (alphas.map fun a => ((sumRows a).map fun x => (1 - x) ^ 2).sum).sum
        = (alphas.map fun a => ((List.range K).map fun k =>
            (1 - ((List.range T).map fun t =>
              (a.getD t []).getD k 0).sum) ^ 2).sum).sum :=
          congrArg List.sum (List.map_congr_left hrow)
      _ = _ := (congrArg List.sum hF).symm
  have hden : (alphas.map fun a => (((sumRows a).length : ℚ))).sum
      = (B : ℚ) * (K : ℚ) := by
    have hconst : alphas.map (fun a => (((sumRows a).length : ℚ)))
        = alphas.map fun _ => ((K : ℚ)) :=
      List.map_congr_left fun a ha => by rw [hsumlen a ha]
    rw [hconst, List.map_const', List.sum_replicate, hB, nsmul_eq_mul]
  unfold attRegularization specAttPenalty mean2d at3
  simp only [List.map_map, Function.comp_def, List.length_map]
  rw [hnum, hden]

/-- C4: the total loss of both passes is exactly the cross entropy of the flattened
predictions and targets plus alpha_c times the mean over (batch, location) pairs of
the squared difference between one and the time-summed attention weight, for every
well-shaped B by T by K attention tensor with T at least 1. -/
theorem C4_loss_decomposition (logF : ℚ → ℚ) (fpreds : List (List ℚ))
    (ftargets : List Nat) (alphaC : ℚ) (alphas : List (List (List ℚ)))
    (B T K : Nat) (hB : alphas.length = B) (hT : ∀ a ∈ alphas, a.length = T)
    (hT1 : 1 ≤ T) (hK : ∀ a ∈ alphas, ∀ r ∈ a, r.length = K) :
    totalLoss logF fpreds ftargets alphaC alphas
      = crossEntropyProbs logF fpreds ftargets
        + specAttPenalty alphaC alphas B T K := by
  unfold totalLoss
  rw [attReg_eq_spec alphaC alphas B T K hB hT hT1 hK]

/-- Witness for C4 at a one-sample, one-step, two-location attention tensor. -/
theorem C4_loss_decomposition_witness :
    ([[[(1 : ℚ) / 2, 1 / 2]]].length = 1) ∧
    totalLoss (fun _ => 0) [[1]] [0] 1 [[[(1 : ℚ) / 2, 1 / 2]]]
      = crossEntropyProbs (fun _ => 0) [[1]] [0]
        + specAttPenalty 1 [[[(1 : ℚ) / 2, 1 / 2]]] 1 1 2 := by
  refine ⟨rfl, ?_⟩
  exact C4_loss_decomposition (fun _ => 0) [[1]] [0] 1 [[[(1 : ℚ) / 2, 1 / 2]]]
    1 1 2 rfl (by simp) (by simp) (by simp)

/-- A probability row of size v putting all mass on token t. -/
def oneHot (v t : Nat) : List ℚ :=
  (List.range v).map fun i => if i = t then 1 else 0

/-- The caption batch of the numeric scenario of spec section 8: B equals 2, L
equals 4, start token at position 0. -/
def scenarioCaptions : List (List Nat) := [[0, 3, 5, 2], [0, 7, 1, 9]]

/-- Predictions of the scenario: probability 1 on the correct token at every one of
the three decoding steps of each sample, over a vocabulary of 10. -/
def scenarioPreds : List (List (List ℚ)) :=
  [[oneHot 10 3, oneHot 10 5, oneHot 10 2],
   [oneHot 10 7, oneHot 10 1, oneHot 10 9]]

/-- Attention weights of the scenario: exactly one quarter at each of the 4 spatial
locations of each of the 3 steps of both samples. -/
def scenarioAlphas : List (List (List ℚ)) :=
  [[[1/4, 1/4, 1/4, 1/4], [1/4, 1/4, 1/4, 1/4], [1/4, 1/4, 1/4, 1/4]],
   [[1/4, 1/4, 1/4, 1/4], [1/4, 1/4, 1/4, 1/4], [1/4, 1/4, 1/4, 1/4]]]

/-- C5: in the concrete scenario with B equal 2, L equal 4, V equal 10, K equal 4
and alpha_c equal 1, perfect predictions make the cross-entropy term exactly 0 for
every log map sending 1 to 0, the attention penalty of the loss engine is exactly
1/16, and the total loss is exactly 1/16, which is 0.0625. -/
theorem C5_perfect_scenario (logF : ℚ → ℚ) (hlog : logF 1 = 0) :
    crossEntropyProbs logF (flattenedPreds scenarioPreds)
        (flattenedTargets scenarioCaptions) = 0 ∧
    attRegularization 1 scenarioAlphas = 1 / 16 ∧
    totalLoss logF (flattenedPreds scenarioPreds)
        (flattenedTargets scenarioCaptions) 1 scenarioAlphas = 1 / 16 := by
  have hT : flattenedTargets scenarioCaptions = [3, 7, 5, 1] := by decide
  have hP : flattenedPreds scenarioPreds
      = [oneHot 10 3, oneHot 10 7, oneHot 10 5, oneHot 10 1] := by
    rfl
  have hget : ∀ x : Nat, x < 10 → (oneHot 10 x).getD x 0 = 1 := by
    decide
  have hce : crossEntropyProbs logF (flattenedPreds scenarioPreds)
      (flattenedTargets scenarioCaptions) = 0 := by
    rw [hP, hT]
    unfold crossEntropyProbs
    simp only [List.zip_cons_cons, List.zip_nil_right, List.map_cons, List.map_nil,
      List.sum_cons, List.sum_nil]
    rw [hget 3 (by omega), hget 7 (by omega), hget 5 (by omega), hget 1 (by omega),
      hlog]
    norm_num
  have hreg : attRegularization 1 scenarioAlphas = 1 / 16 := by
    unfold attRegularization
    norm_num [scenarioAlphas, sumRows, mean2d, List.zipWith_cons_cons]
  refine ⟨hce, hreg, ?_⟩
  unfold totalLoss
  rw [hce, hreg]
  norm_num

/-- Witness for C5 with the log map that is constantly 0. -/
theorem C5_perfect_scenario_witness :
    ((fun _ : ℚ => (0 : ℚ)) 1 = 0) ∧
    totalLoss (fun _ => 0) (flattenedPreds scenarioPreds)
      (flattenedTargets scenarioCaptions) 1 scenarioAlphas = 1 / 16 :=
  ⟨rfl, (C5_perfect_scenario (fun _ => 0) rfl).2.2⟩

/-- Abstract model state threaded through a pass: opaque encoder and decoder
parameter vectors plus the training-mode flags that the eval and train calls of
the two modules drive. -/
structure Model (θ : Type) where
  encP : θ
  decP : θ
  encTraining : Bool
  decTraining : Bool

/-- The three per-pass meters (train.py lines 66 to 68 and 107 to 109). -/
structure Meters where
  losses : AverageMeter
  top1 : AverageMeter
  top5 : AverageMeter

/-- The batch statistics a pass derives from the forward outputs, as abstract
deterministic functions of the decoder parameters and the batch data: the loss
value, the two accuracies, and the meter weight of the batch. -/
structure BatchStats (θ β : Type) where
  lossOf : θ → β → ℚ
  acc1Of : θ → β → ℚ
  acc5Of : θ → β → ℚ
  weightOf : β → ℚ

def freshMeters : Meters := ⟨⟨0, 0⟩, ⟨0, 0⟩, ⟨0, 0⟩⟩

/-- Embeds one iteration of the validate loop (train.py lines 111 to 129): inside
no_grad and with no optimizer in scope, the meters are updated from the forward
outputs and the model is passed on exactly as received. -/
def valStep {θ β : Type} (fs : BatchStats θ β) (s : Model θ × Meters) (b : β) :
    Model θ × Meters :=
  (s.1,
   ⟨s.2.losses.update (fs.lossOf s.1.decP b) (fs.weightOf b),
    s.2.top1.update (fs.acc1Of s.1.decP b) (fs.weightOf b),
    s.2.top5.update (fs.acc5Of s.1.decP b) (fs.weightOf b)⟩)

/-- Embeds one iteration of the train loop (train.py lines 69 to 100): the meters
are updated from the pre-step forward outputs, and optimizer.step then rewrites the
decoder parameters through the abstract update map optStep; the mode flags and the
encoder parameters are untouched. -/
def trainStep {θ β : Type} (optStep : θ → β → θ) (fs : BatchStats θ β)
    (s : Model θ × Meters) (b : β) : Model θ × Meters :=
  ({ s.1 with decP := optStep s.1.decP b },
   ⟨s.2.losses.update (fs.lossOf s.1.decP b) (fs.weightOf b),
    s.2.top1.update (fs.acc1Of s.1.decP b) (fs.weightOf b),
    s.2.top5.update (fs.acc5Of s.1.decP b) (fs.weightOf b)⟩)

/-- Embeds validate (train.py lines 103 to 129): encoder.eval, decoder.eval, fresh
meters, then the batch fold. -/
def validate {θ β : Type} (fs : BatchStats θ β) (mo : Model θ) (bs : List β) :
    Model θ × Meters :=
  bs.foldl (valStep fs)
    ({ mo with encTraining := false, decTraining := false }, freshMeters)

/-- Embeds train (train.py lines 62 to 100): encoder.eval, decoder.train, fresh
meters, then the batch fold with optimizer steps. -/
def train {θ β : Type} (optStep : θ → β → θ) (fs : BatchStats θ β)
    (mo : Model θ) (bs : List β) : Model θ × Meters :=
  bs.foldl (trainStep optStep fs)
    ({ mo with encTraining := false, decTraining := true }, freshMeters)

/-- The model states visited during a validate pass: the state right after the mode
setting and the state after each batch. -/
def validateStates {θ β : Type} (fs : BatchStats θ β) (mo : Model θ)
    (bs : List β) : List (Model θ) :=
  (bs.scanl (valStep fs)
    ({ mo with encTraining := false, decTraining := false }, freshMeters)).map
      Prod.fst

/-- The model states visited during a train pass: the state right after the mode
setting and the state after each batch. -/
def trainStates {θ β : Type} (optStep : θ → β → θ) (fs : BatchStats θ β)
    (mo : Model θ) (bs : List β) : List (Model θ) :=
  (bs.scanl (trainStep optStep fs)
    ({ mo with encTraining := false, decTraining := true }, freshMeters)).map
      Prod.fst

lemma validate_foldl_model {θ β : Type} (fs : BatchStats θ β) (bs : List β) :
    ∀ s : Model θ × Meters, (bs.foldl (valStep fs) s).1 = s.1 := by
  induction bs with
  | nil => intro s; rfl
  | cons b bs ih =>
    intro s
    rw [List.foldl_cons, ih]
    rfl

/-- C6: a validate pass never writes the decoder or encoder parameters, and a
second validate pass on the state the first returned yields exactly the same three
meters, so loss and both accuracies are identical between the two runs. -/
theorem C6_validate_readonly {θ β : Type} (fs : BatchStats θ β) (mo : Model θ)
    (bs : List β) :
    (validate fs mo bs).1.decP = mo.decP ∧
    (validate fs mo bs).1.encP = mo.encP ∧
    (validate fs (validate fs mo bs).1 bs).2 = (validate fs mo bs).2 := by
  have hmodel : (validate fs mo bs).1
      = { mo with encTraining := false, decTraining := false } :=
    validate_foldl_model fs bs _
  have h2 : validate fs (validate fs mo bs).1 bs = validate fs mo bs := by
    rw [hmodel]
    rfl
  exact ⟨by rw [hmodel], by rw [hmodel], by rw [h2]⟩

lemma scanl_modes_val {θ β : Type} (fs : BatchStats θ β) (bs : List β) :
    ∀ s : Model θ × Meters, s.1.encTraining = false → s.1.decTraining = false →
      ∀ m ∈ (bs.scanl (valStep fs) s).map Prod.fst,
        m.encTraining = false ∧ m.decTraining = false := by
  induction bs with
  | nil =>
    intro s he hd m hm
    simp only [List.scanl_nil, List.map_cons, List.map_nil, List.mem_singleton] at hm
    rw [hm]
    exact ⟨he, hd⟩
  | cons b bs ih =>
    intro s he hd m hm
    rw [List.scanl_cons] at hm
    simp only [List.singleton_append, List.map_cons, List.mem_cons] at hm
    rcases hm with h | h
    · rw [h]; exact ⟨he, hd⟩
    · exact ih (valStep fs s b) he hd m h

lemma scanl_modes_train {θ β : Type} (optStep : θ → β → θ) (fs : BatchStats θ β)
    (bs : List β) :
    ∀ s : Model θ × Meters, s.1.encTraining = false → s.1.decTraining = true →
      ∀ m ∈ (bs.scanl (trainStep optStep fs) s).map Prod.fst,
        m.encTraining = false ∧ m.decTraining = true := by
  induction bs with
  | nil =>
    intro s he hd m hm
    simp only [List.scanl_nil, List.map_cons, List.map_nil, List.mem_singleton] at hm
    rw [hm]
    exact ⟨he, hd⟩
  | cons b bs ih =>
    intro s he hd m hm
    rw [List.scanl_cons] at hm
    simp only [List.singleton_append, List.map_cons, List.mem_cons] at hm
    rcases hm with h | h
    · rw [h]; exact ⟨he, hd⟩
    · exact ih (trainStep optStep fs s b) he hd m h

/-- C9: throughout every train pass the encoder flag stays in inference mode while
the decoder flag stays in training mode, and throughout every validate pass both
flags stay in inference mode; the flags are set once at the head of the pass and no
batch step touches them. -/
theorem C9_pass_modes {θ β : Type} (optStep : θ → β → θ) (fs : BatchStats θ β)
    (mo : Model θ) (bs : List β) :
    (∀ m ∈ trainStates optStep fs mo bs,
      m.encTraining = false ∧ m.decTraining = true) ∧
    (∀ m ∈ validateStates fs mo bs,
      m.encTraining = false ∧ m.decTraining = false) :=
  ⟨scanl_modes_train optStep fs bs _ rfl rfl,
   scanl_modes_val fs bs _ rfl rfl⟩

/-- Modelled from the spec: utils.accuracy is imported by train.py but utils.py is
not among the sources; spec section 4.3 checks, per row, whether the true target is
among the k highest scoring vocabulary entries under a stable selection. The stable
rank of the target counts the entries selected before it: every entry of strictly
higher score, and every entry of equal score and lower index. -/
def stableRank (row : List ℚ) (t : Nat) : Nat :=
  ((List.range row.length).filter fun i =>
    decide (row.getD t 0 < row.getD i 0
      ∨ (row.getD i 0 = row.getD t 0 ∧ i < t))).length

/-- Modelled from the spec: the target of a row is inside the top k entries exactly
when fewer than k entries are selected before it. -/
def inTopK (k : Nat) (row : List ℚ) (t : Nat) : Bool :=
  decide (stableRank row t < k)

/-- Modelled from the spec: accuracy of section 4.3 over flattened rows paired with
their targets, as matches over N times 100. -/
def accuracyK (rows : List (List ℚ × Nat)) (k : Nat) : ℚ :=
  ((rows.countP fun rt => inTopK k rt.1 rt.2 : Nat) : ℚ) * 100
    / ((rows.length : ℚ))

/-- C8: for fixed flattened rows with at least one row, top-k accuracy never
decreases as k grows; in particular top-5 accuracy is at least top-1 accuracy. -/
theorem C8_topk_monotone (rows : List (List ℚ × Nat)) (k k2 : Nat)
    (hN : 0 < rows.length) (hk : k ≤ k2) :
    accuracyK rows k ≤ accuracyK rows k2 := by
  unfold accuracyK
  have hcount : rows.countP (fun rt => inTopK k rt.1 rt.2)
      ≤ rows.countP fun rt => inTopK k2 rt.1 rt.2 := by
    refine List.countP_mono_left fun rt hrt h => ?_
    unfold inTopK at h ⊢
    simp only [decide_eq_true_eq] at h ⊢
    omega
  have hmul : ((rows.countP fun rt => inTopK k rt.1 rt.2 : Nat) : ℚ) * 100
      ≤ ((rows.countP fun rt => inTopK k2 rt.1 rt.2 : Nat) : ℚ) * 100 := by
    have hc := (Nat.cast_le (α := ℚ)).mpr hcount
    nlinarith
  exact div_le_div_of_nonneg_right hmul (by positivity)

/-- Witness for C8 at one row of three scores with target index 1 and k growing
from 1 to 5. -/
theorem C8_topk_monotone_witness :
    (0 < ([([0, 5, 3], 1)] : List (List ℚ × Nat)).length) ∧ (1 ≤ 5) ∧
    accuracyK [([0, 5, 3], 1)] 1 ≤ accuracyK [([0, 5, 3], 1)] 5 :=
  ⟨by simp, by omega,
   C8_topk_monotone [([0, 5, 3], 1)] 1 5 (by simp) (by omega)⟩

/-- Embeds the unguarded batch loop shared by the two passes (train.py lines 69 to
100 and 111 to 129): no iteration carries an exception handler, so the production
of each batch by the loader and the processing step on it are sequenced by bind and
the first failure aborts the whole pass. -/
def runBatches {σ β ε : Type _} (step : σ → β → Except ε σ) :
    σ → List (Except ε β) → Except ε σ
  | s, [] => .ok s
  | s, b :: bs => do
      let batch ← b
      let s2 ← step s batch
      runBatches step s2 bs

lemma runBatches_count {β ε : Type} (wOf : β → ℚ) (l : List β) :
    ∀ n : ℚ, runBatches (fun n b => (Except.ok (n + wOf b) : Except ε ℚ)) n
        (l.map (Except.ok : β → Except ε β))
      = Except.ok (n + (l.map wOf).sum) := by
  induction l with
  | nil => intro n; simp [runBatches]
  | cons b bs ih =>
    intro n
    show runBatches (fun n b => (Except.ok (n + wOf b) : Except ε ℚ)) (n + wOf b)
      (bs.map (Except.ok : β → Except ε β)) = _
    rw [ih (n + wOf b)]
    simp only [List.map_cons, List.sum_cons]
    rw [add_assoc]

/-- C10: the passes neither catch nor skip: a pass that hits an error batch after
any run of good batches returns exactly that error, discarding nothing silently; a
pass that returns normally consumed only good batches; and on an all-good loader
the fold accumulates the weight of every single batch into the denominator. -/
theorem C10_failure_propagates {σ β ε : Type} (step : σ → β → Except ε σ)
    (init : σ) (oks : List β) (e : ε) (rest : List (Except ε β))
    (hstep : ∀ s b, ∃ s2, step s b = Except.ok s2) :
    runBatches step init (oks.map Except.ok ++ Except.error e :: rest)
        = Except.error e ∧
    (∀ (bs : List (Except ε β)) (s0 s2 : σ), runBatches step s0 bs = Except.ok s2 →
      ∀ x ∈ bs, ∃ b, x = Except.ok b) ∧
    (∀ (wOf : β → ℚ) (l : List β),
      runBatches (fun n b => (Except.ok (n + wOf b) : Except ε ℚ)) (0 : ℚ)
          (l.map (Except.ok : β → Except ε β))
        = Except.ok ((l.map wOf).sum)) := by
  refine ⟨?_, ?_, ?_⟩
  · induction oks generalizing init with
    | nil => rfl
    | cons o os ih =>
      obtain ⟨s2, hs2⟩ := hstep init o
      show (step init o).bind _ = _
      rw [hs2]
      exact ih s2
  · intro bs
    induction bs with
    | nil => intro s0 s2 _ x hx; cases hx
    | cons x bs ih =>
      intro s0 s2 hrun y hy
      cases x with
      | error e2 => cases hrun
      | ok b =>
        rcases List.mem_cons.mp hy with h | h
        · exact ⟨b, h⟩
        · cases hs : step s0 b with
          | error e2 =>
            rw [show runBatches step s0 (Except.ok b :: bs)
              = (step s0 b).bind (fun s3 => runBatches step s3 bs) from rfl,
              hs] at hrun
            cases hrun
          | ok s3 =>
            rw [show runBatches step s0 (Except.ok b :: bs)
              = (step s0 b).bind (fun s3 => runBatches step s3 bs) from rfl,
              hs] at hrun
            exact ih s3 s2 hrun y h
  · intro wOf l
    rw [runBatches_count wOf l 0, zero_add]

/-- Witness for C10 with a counting step, two good batches, then an error batch. -/
theorem C10_failure_propagates_witness :
    (∀ (s b : Nat), ∃ s2,
      (fun s b => (Except.ok (s + b) : Except Nat Nat)) s b = Except.ok s2) ∧
    runBatches (fun s b => (Except.ok (s + b) : Except Nat Nat)) 0
      ([1, 2].map Except.ok ++ Except.error 5 :: [Except.ok 3])
      = Except.error 5 := by
  have h : ∀ (s b : Nat), ∃ s2,
      (fun s b => (Except.ok (s + b) : Except Nat Nat)) s b = Except.ok s2 :=
    fun s b => ⟨s + b, rfl⟩
  exact ⟨h, (C10_failure_propagates (fun s b => Except.ok (s + b)) 0 [1, 2] 5
    [Except.ok 3] h).1⟩

end ShowAttendTell
